import Mathlib

/-!
Shallow embedding of the GoDeployer sources (deployer.go, main.go,
filewatcher.go) and verification of the specification claims.

The file watcher is modelled as pure functions over directory-walk result
lists and association-list snapshots (Go maps keyed by relative path).
The deploy supervisor is modelled as explicit state passing; the outcomes
of the external operations it performs (signal delivery, forced kill,
process exit within the grace period, copy, process start) are supplied as
an explicit environment record, so every control path of the Go code is a
branch of the Lean function.
-/

namespace GoDeployer

/-! ## File watcher data model (filewatcher.go) -/

/-- FileState from filewatcher.go: ModTime and Size of one file at scan
time.  Go time.Time values compared with Equal are modelled as Int, and
int64 sizes as Int. -/
structure FileState where
  modTime : Int
  size : Int
deriving Repr, DecidableEq

/-- FileChangeEvent from filewatcher.go.  ChangeType is one of the strings
used by the source: "created", "modified", "deleted". -/
structure FileChangeEvent where
  RelPath : String
  FullPath : String
  ChangeType : String
  Size : Int
  ModTime : Int
deriving Repr, DecidableEq

/-- A Go map from relative path to FileState, modelled as an association
list.  The Go maps never hold duplicate keys; theorems that need this take
it as a Nodup hypothesis on the key list. -/
abbrev Snapshot := List (String × FileState)

/-- Lookup in a snapshot map, the Go expression knownFiles[relPath]. -/
def snapFind : Snapshot → String → Option FileState
  | [], _ => none
  | (k, v) :: rest, key => if k = key then some v else snapFind rest key

/-- Map store m[k] = v: replaces the binding if the key is present,
otherwise appends it. -/
def mapInsert : Snapshot → String → FileState → Snapshot
  | [], k, v => [(k, v)]
  | (k2, v2) :: rest, k, v =>
    if k2 = k then (k, v) :: rest else (k2, v2) :: mapInsert rest k v

/-- Map delete(m, k): removes every binding of the key. -/
def mapErase : Snapshot → String → Snapshot
  | [], _ => []
  | (k2, v2) :: rest, k =>
    if k2 = k then mapErase rest k else (k2, v2) :: mapErase rest k

/-- One regular file visited by filepath.Walk during a scan: the relative
path computed by filepath.Rel, the absolute path, and the observed
FileState.  Directories are skipped by the walk callback and therefore do
not appear. -/
structure WalkEntry where
  relPath : String
  fullPath : String
  state : FileState
deriving Repr, DecidableEq

/-- The currentFiles map built by scanFiles: each visited file stored under
its relative path. -/
def currentOf (walk : List WalkEntry) : Snapshot :=
  walk.map (fun e => (e.relPath, e.state))

/-- The "modified" event emitted by scanFiles for a changed file. -/
def modifiedEvent (e : WalkEntry) : FileChangeEvent :=
  { ChangeType := "modified", RelPath := e.relPath, FullPath := e.fullPath,
    Size := e.state.size, ModTime := e.state.modTime }

/-- The "created" event emitted by scanFiles for a new file. -/
def createdEvent (e : WalkEntry) : FileChangeEvent :=
  { ChangeType := "created", RelPath := e.relPath, FullPath := e.fullPath,
    Size := e.state.size, ModTime := e.state.modTime }

/-- The "deleted" event emitted by scanFiles: only RelPath is set, the
remaining fields keep their Go zero values. -/
def deletedEvent (relPath : String) : FileChangeEvent :=
  { ChangeType := "deleted", RelPath := relPath, FullPath := "",
    Size := 0, ModTime := 0 }

/-- The events the walk callback of scanFiles emits for one visited file:
a "modified" event when the path is known and its ModTime or Size differs,
a "created" event when the path is unknown and this is not the initial
scan, and nothing otherwise. -/
def entryEvents (known : Snapshot) (isInitial : Bool) (e : WalkEntry) :
    List FileChangeEvent :=
  match snapFind known e.relPath with
  | some oldState =>
    if oldState.modTime ≠ e.state.modTime ∨ oldState.size ≠ e.state.size then
      [modifiedEvent e]
    else []
  | none => if isInitial then [] else [createdEvent e]

/-- All events emitted during the walk phase of scanFiles, in walk order. -/
def walkEvents (known : Snapshot) (walk : List WalkEntry) (isInitial : Bool) :
    List FileChangeEvent :=
  match walk with
  | [] => []
  | e :: rest => entryEvents known isInitial e ++ walkEvents known rest isInitial

/-- The deleted-file check of scanFiles: after the walk, every known path
absent from currentFiles yields a "deleted" event. -/
def deletedEvents (known current : Snapshot) : List FileChangeEvent :=
  match known with
  | [] => []
  | (k, _) :: rest =>
    (if snapFind current k = none then [deletedEvent k] else [])
      ++ deletedEvents rest current

/-- The first update loop at the end of scanFiles: knownFiles[k] = v for
every entry of currentFiles. -/
def insertAll (current m : Snapshot) : Snapshot :=
  match current with
  | [] => m
  | (k, v) :: rest => insertAll rest (mapInsert m k v)

/-- The second update loop at the end of scanFiles: delete(knownFiles, k)
for every key of knownFiles that is absent from currentFiles.  The
iteration list and the accumulator start from the same merged map. -/
def dropAbsent (current iter m : Snapshot) : Snapshot :=
  match iter with
  | [] => m
  | (k, _) :: rest =>
    dropAbsent current rest (if snapFind current k = none then mapErase m k else m)

/-- The stored snapshot after the two update loops of scanFiles. -/
def updateKnown (known current : Snapshot) : Snapshot :=
  dropAbsent current (insertAll current known) (insertAll current known)

/-- scanFiles: given the stored snapshot, the walk results and the
isInitial flag, return the emitted events in order and the new stored
snapshot.  Created and modified events are emitted while walking; deleted
events only after the walk, and not on the initial scan. -/
def scanFiles (known : Snapshot) (walk : List WalkEntry) (isInitial : Bool) :
    List FileChangeEvent × Snapshot :=
  (walkEvents known walk isInitial
     ++ (if isInitial then [] else deletedEvents known (currentOf walk)),
   updateKnown known (currentOf walk))

/-- Notify from filewatcher.go: every event is handed to each of the
handlerCount subscribers in subscription order.  A delivery is the pair of
the subscriber index and the event. -/
def notifyAll (handlerCount : Nat) (events : List FileChangeEvent) :
    List (Nat × FileChangeEvent) :=
  match events with
  | [] => []
  | ev :: rest =>
    (List.range handlerCount).map (fun i => (i, ev)) ++ notifyAll handlerCount rest

/-! ## Path helpers (path/filepath, strings) -/

/-- Split a character list on the path separator. -/
def splitSlash : List Char → List Char → List (List Char)
  | [], cur => [cur.reverse]
  | c :: rest, cur =>
    if c = '/' then cur.reverse :: splitSlash rest [] else splitSlash rest (c :: cur)

/-- One step of lexical path cleaning: push a component on the stack,
resolving ".." against the stack as filepath.Clean does. -/
def pushComp (rooted : Bool) (stack : List String) (c : String) : List String :=
  if c = ".." then
    match stack with
    | [] => if rooted then [] else [".."]
    | top :: rest => if top = ".." then c :: stack else rest
  else c :: stack

/-- Join cleaned components with the path separator. -/
def joinComps : List String → String
  | [] => ""
  | [c] => c
  | c :: rest => c ++ "/" ++ joinComps rest

/-- filepath.Clean for slash-separated paths: drop empty and "."
components, resolve "..", keep leading ".." on relative paths, return "."
for an empty result and keep a leading "/" on rooted paths. -/
def goClean (p : String) : String :=
  match p.toList with
  | [] => "."
  | c0 :: _ =>
    let rooted := c0 = '/'
    let comps := (splitSlash p.toList []).map (fun l => String.mk l)
    let comps := comps.filter (fun c => !(c == "") && !(c == "."))
    let stack := comps.foldl (pushComp rooted) []
    let cleaned := stack.reverse
    if rooted then "/" ++ joinComps cleaned
    else if cleaned = [] then "." else joinComps cleaned

/-- Character-list prefix test, first argument is the candidate head. -/
def listIsPre : List Char → List Char → Bool
  | [], _ => true
  | _ :: _, [] => false
  | a :: as, b :: bs => a = b && listIsPre as bs

/-- strings.HasPrefix s pre. -/
def goHasPre (s pre : String) : Bool :=
  listIsPre pre.toList s.toList

/-- filepath.Join of two elements: non-empty elements joined with the
separator, then cleaned; empty when both elements are empty. -/
def goJoin (a b : String) : String :=
  if a = "" then (if b = "" then "" else goClean b)
  else if b = "" then goClean a
  else goClean (a ++ "/" ++ b)

/-! ## Deploy supervisor (deployer.go) -/

/-- CONFIG_ID from deployer.go. -/
def CONFIG_ID : String := "deploy.json"

/-- DeployConfig from deployer.go. -/
structure DeployConfig where
  DeployLocation : String
  Executable : String
  Args : List String
  SourceLocation : String
  EnvironmentVariables : List String
deriving Repr, DecidableEq

/-- An exec.Cmd handle: its Process field (modelled by the pid) is present
once Start has succeeded. -/
structure GoCmd where
  process : Option Nat
deriving Repr, DecidableEq

/-- The mutex-guarded mutable state of the Deployer: the current command
handle and the running flag. -/
structure DeployerState where
  currentCmd : Option GoCmd
  isRunning : Bool
deriving Repr, DecidableEq

/-- Outcomes of the external operations Kill performs: whether the SIGTERM
delivery succeeds, whether a forced Process.Kill succeeds, and whether the
process exits within the 5 second grace period. -/
structure KillEnv where
  sigtermOk : Bool
  forceKillOk : Bool
  exitsWithinGrace : Bool
deriving Repr, DecidableEq

/-- The only error Kill can return: the forced kill after a failed SIGTERM
failed as well. -/
inductive KillErr where
  | forceKillFailed
deriving Repr, DecidableEq

/-- The wait phase of Kill: wait on the process with a 5 second timeout;
on timeout force-kill, discarding any error.  Both branches then clear the
handle and the running flag. -/
def killWaitPhase (s : DeployerState) (env : KillEnv) :
    DeployerState × Option KillErr :=
  if env.exitsWithinGrace then
    ({ s with currentCmd := none, isRunning := false }, none)
  else
    ({ s with currentCmd := none, isRunning := false }, none)

/-- Kill from deployer.go.  No handle or no started process: no-op with
success.  Otherwise send SIGTERM; if that fails, force-kill, and if the
forced kill fails too, return the error at once, leaving the state
untouched.  Otherwise wait with the grace-period timeout and clear the
state. -/
def Kill (s : DeployerState) (env : KillEnv) : DeployerState × Option KillErr :=
  match s.currentCmd with
  | none => (s, none)
  | some cmd =>
    match cmd.process with
    | none => (s, none)
    | some _ =>
      if env.sigtermOk then killWaitPhase s env
      else if env.forceKillOk then killWaitPhase s env
      else (s, some KillErr.forceKillFailed)

/-- Errors Deploy can return. -/
inductive DeployErr where
  | copyFailed
  | startFailed
deriving Repr, DecidableEq

/-- Outcomes of the external operations Deploy performs: whether the
recursive copy succeeds, whether cmd.Start succeeds, and the pid of the
started process on success. -/
structure DeployEnv where
  copyOk : Bool
  startOk : Bool
  startedPid : Nat
deriving Repr, DecidableEq

/-- Deploy from deployer.go: copy the source tree, abort with an error on
copy failure; start the process, abort with an error on start failure;
otherwise record the handle and set the running flag. -/
def Deploy (s : DeployerState) (env : DeployEnv) :
    DeployerState × Option DeployErr :=
  if env.copyOk then
    if env.startOk then
      ({ s with currentCmd := some { process := some env.startedPid },
                isRunning := true }, none)
    else (s, some DeployErr.startFailed)
  else (s, some DeployErr.copyFailed)

/-- isSourceFile from deployer.go: strings.HasPrefix of the cleaned
relative path against the cleaned source location. -/
def isSourceFile (cfg : DeployConfig) (relPath : String) : Bool :=
  goHasPre (goClean relPath) (goClean cfg.SourceLocation)

/-- reloadConfig from deployer.go: LoadDeployConfig with panicOnFailure
false returns either a parsed config or nil; the Deployer keeps the
previous config when it is nil.  The load result is passed in as loaded. -/
def reloadConfig (current : DeployConfig) (loaded : Option DeployConfig) :
    DeployConfig :=
  match loaded with
  | some cfg => cfg
  | none => current

/-- Handle from deployer.go: an event whose RelPath equals CONFIG_ID
reloads the config and redeploys; otherwise a source file redeploys;
otherwise nothing happens.  The returned pair is the config after the
call and whether Redeploy was triggered. -/
def Handle (cfg : DeployConfig) (event : FileChangeEvent)
    (loaded : Option DeployConfig) : DeployConfig × Bool :=
  if event.RelPath = CONFIG_ID then (reloadConfig cfg loaded, true)
  else if isSourceFile cfg event.RelPath then (cfg, true)
  else (cfg, false)

/-- The notion the spec-side classification claim compares against: a
cleaned relative path lies inside a directory when it equals the directory
or extends it past a path separator.  This definition follows the words of
the claim, not the source. -/
def isInsideDir (dir relPath : String) : Bool :=
  relPath = dir || goHasPre relPath (dir ++ "/")

/-! ## Recursive copy helpers (deployer.go) -/

/-- One entry of the filepath.Walk performed by copyDir: the relative path
under the copy source, whether it is a directory, its file mode, and (for
regular files) its contents, modelled as a byte list. -/
structure CopyEntry where
  relPath : String
  isDir : Bool
  mode : Nat
  data : List Nat
deriving Repr, DecidableEq

/-- The filesystem writes copyDir and copyFile perform. -/
inductive FsAction where
  | mkdirAll (path : String) (mode : Nat)
  | writeFile (path : String) (data : List Nat) (mode : Nat)
deriving Repr, DecidableEq

/-- copyFile from deployer.go: read the source and write the destination
with the fixed mode 0644. -/
def copyFile (data : List Nat) (dst : String) : FsAction :=
  FsAction.writeFile dst data 0o644

/-- copyDir from deployer.go: make the destination directory with mode
0755, then for every walk entry make the corresponding directory with the
source mode, or copy the file. -/
def copyDir (dst : String) (walk : List CopyEntry) : List FsAction :=
  FsAction.mkdirAll dst 0o755 ::
    walk.map (fun e =>
      if e.isDir then FsAction.mkdirAll (goJoin dst e.relPath) e.mode
      else copyFile e.data (goJoin dst e.relPath))

/-! ## Snapshot map lemmas -/

/-- A key is absent from a snapshot exactly when lookup returns none. -/
theorem snapFind_eq_none_iff (m : Snapshot) (key : String) :
    snapFind m key = none ↔ key ∉ m.map Prod.fst := by
  induction m with
  | nil => simp [snapFind]
  | cons kv rest ih =>
    obtain ⟨k, v⟩ := kv
    by_cases h : k = key
    · subst h
      simp [snapFind]
    · simp [snapFind, h, ih, Ne.symm h]

/-- A successful lookup exhibits a binding of the snapshot. -/
theorem mem_of_snapFind_eq_some {m : Snapshot} {key : String} {v : FileState}
    (h : snapFind m key = some v) : (key, v) ∈ m := by
  induction m with
  | nil => simp [snapFind] at h
  | cons kv rest ih =>
    obtain ⟨k, w⟩ := kv
    by_cases hk : k = key
    · subst hk
      simp [snapFind] at h
      subst h
      exact List.mem_cons_self _ _
    · simp [snapFind, hk] at h
      exact List.mem_cons_of_mem _ (ih h)

/-- Lookup after a map store. -/
theorem snapFind_mapInsert (m : Snapshot) (k : String) (v : FileState)
    (key : String) :
    snapFind (mapInsert m k v) key = if key = k then some v else snapFind m key := by
  by_cases hkey : key = k
  · subst hkey
    rw [if_pos rfl]
    induction m with
    | nil => simp [mapInsert, snapFind]
    | cons kv rest ih =>
      obtain ⟨k2, v2⟩ := kv
      by_cases h2 : k2 = key
      · simp [mapInsert, snapFind, h2]
      · simp [mapInsert, snapFind, h2, ih]
  · rw [if_neg hkey]
    induction m with
    | nil => simp [mapInsert, snapFind, Ne.symm hkey]
    | cons kv rest ih =>
      obtain ⟨k2, v2⟩ := kv
      by_cases h2 : k2 = k
      · simp [mapInsert, snapFind, h2, Ne.symm hkey]
      · by_cases hk2 : k2 = key <;> simp [mapInsert, snapFind, h2, hk2, hkey, ih]

/-- Lookup after a map delete. -/
theorem snapFind_mapErase (m : Snapshot) (k key : String) :
    snapFind (mapErase m k) key = if key = k then none else snapFind m key := by
  by_cases hkey : key = k
  · subst hkey
    rw [if_pos rfl]
    induction m with
    | nil => rfl
    | cons kv rest ih =>
      obtain ⟨k2, v2⟩ := kv
      by_cases h2 : k2 = key
      · simpa [mapErase, h2] using ih
      · simp [mapErase, snapFind, h2, ih]
  · rw [if_neg hkey]
    induction m with
    | nil => rfl
    | cons kv rest ih =>
      obtain ⟨k2, v2⟩ := kv
      by_cases h2 : k2 = k
      · have hne : ¬ k2 = key := by
          intro hh
          exact hkey (by rw [← hh, h2])
        simp [mapErase, snapFind, h2, hne, Ne.symm hkey, ih]
      · by_cases hk2 : k2 = key
        · simp [mapErase, snapFind, h2, hk2, hkey]
        · simp [mapErase, snapFind, h2, hk2, ih]

/-- Inserting bindings whose keys miss the lookup key leaves it alone. -/
theorem snapFind_insertAll_of_none (current : Snapshot) (m : Snapshot)
    (key : String) (h : snapFind current key = none) :
    snapFind (insertAll current m) key = snapFind m key := by
  induction current generalizing m with
  | nil => rfl
  | cons kv rest ih =>
    obtain ⟨k, v⟩ := kv
    have hk : ¬ k = key := by
      intro hkey
      subst hkey
      simp [snapFind] at h
    rw [show snapFind ((k, v) :: rest) key = snapFind rest key by
          simp [snapFind, hk]] at h
    show snapFind (insertAll rest (mapInsert m k v)) key = snapFind m key
    rw [ih _ h, snapFind_mapInsert, if_neg (fun hh => hk hh.symm)]

/-- With duplicate-free keys, every binding of the inserted list wins. -/
theorem snapFind_insertAll_of_some (current m : Snapshot) (key : String)
    (v : FileState) (hnd : (current.map Prod.fst).Nodup)
    (h : snapFind current key = some v) :
    snapFind (insertAll current m) key = some v := by
  induction current generalizing m with
  | nil => simp [snapFind] at h
  | cons kv rest ih =>
    obtain ⟨k, w⟩ := kv
    rw [List.map_cons, List.nodup_cons] at hnd
    by_cases hk : k = key
    · subst hk
      rw [show snapFind ((k, w) :: rest) k = some w by simp [snapFind]] at h
      have hrest : snapFind rest k = none := (snapFind_eq_none_iff rest k).mpr hnd.1
      show snapFind (insertAll rest (mapInsert m k w)) k = some v
      rw [snapFind_insertAll_of_none rest _ k hrest, snapFind_mapInsert, if_pos rfl, h]
    · rw [show snapFind ((k, w) :: rest) key = snapFind rest key by
            simp [snapFind, hk]] at h
      exact ih (mapInsert m k w) hnd.2 h

/-- Keys still present in the current snapshot survive the delete loop. -/
theorem snapFind_dropAbsent_of_some (current iter m : Snapshot) (key : String)
    (h : snapFind current key ≠ none) :
    snapFind (dropAbsent current iter m) key = snapFind m key := by
  induction iter generalizing m with
  | nil => rfl
  | cons kv rest ih =>
    obtain ⟨k, w⟩ := kv
    show snapFind (dropAbsent current rest _) key = snapFind m key
    rw [ih]
    by_cases hck : snapFind current k = none
    · rw [if_pos hck, snapFind_mapErase, if_neg ?_]
      intro hkey
      subst hkey
      exact h hck
    · rw [if_neg hck]

/-- The delete loop never introduces a key. -/
theorem snapFind_dropAbsent_none (current iter m : Snapshot) (key : String)
    (h : snapFind m key = none) :
    snapFind (dropAbsent current iter m) key = none := by
  induction iter generalizing m with
  | nil => exact h
  | cons kv rest ih =>
    obtain ⟨k, w⟩ := kv
    show snapFind (dropAbsent current rest _) key = none
    apply ih
    by_cases hck : snapFind current k = none
    · rw [if_pos hck, snapFind_mapErase]
      by_cases hkey : key = k <;> simp [hkey, h]
    · rw [if_neg hck]
      exact h

/-- A key absent from the current snapshot but visited by the delete loop
is removed. -/
theorem snapFind_dropAbsent_absent (current iter m : Snapshot) (key : String)
    (hc : snapFind current key = none) (hmem : key ∈ iter.map Prod.fst) :
    snapFind (dropAbsent current iter m) key = none := by
  induction iter generalizing m with
  | nil => simp at hmem
  | cons kv rest ih =>
    obtain ⟨k, w⟩ := kv
    show snapFind (dropAbsent current rest _) key = none
    by_cases hk : k = key
    · subst hk
      rw [if_pos hc]
      apply snapFind_dropAbsent_none
      rw [snapFind_mapErase, if_pos rfl]
    · have hmem2 : key ∈ rest.map Prod.fst := by
        rw [List.map_cons, List.mem_cons] at hmem
        exact hmem.resolve_left (fun hh => hk (Eq.symm hh))
      exact ih _ hmem2

/-- The two update loops of scanFiles replace the stored snapshot with the
current one, binding for binding. -/
theorem snapFind_updateKnown (known current : Snapshot) (key : String)
    (hnd : (current.map Prod.fst).Nodup) :
    snapFind (updateKnown known current) key = snapFind current key := by
  unfold updateKnown
  cases h : snapFind current key with
  | some v =>
    rw [snapFind_dropAbsent_of_some _ _ _ _ (by simp [h])]
    exact snapFind_insertAll_of_some current known key v hnd h
  | none =>
    by_cases hmem : key ∈ (insertAll current known).map Prod.fst
    · exact snapFind_dropAbsent_absent _ _ _ _ h hmem
    · exact snapFind_dropAbsent_none _ _ _ _ ((snapFind_eq_none_iff _ _).mpr hmem)

/-! ## Event lemmas -/

/-- The events of scanFiles on a non-initial scan are the walk events
followed by the deleted events. -/
theorem scanFiles_fst (known : Snapshot) (walk : List WalkEntry) :
    (scanFiles known walk false).1
      = walkEvents known walk false ++ deletedEvents known (currentOf walk) := rfl

/-- currentFiles of a cons walk. -/
theorem currentOf_cons (e : WalkEntry) (rest : List WalkEntry) :
    currentOf (e :: rest) = (e.relPath, e.state) :: currentOf rest := rfl

/-- The keys of currentFiles are the relative paths of the walk. -/
theorem currentOf_keys (walk : List WalkEntry) :
    (currentOf walk).map Prod.fst = walk.map WalkEntry.relPath := by
  induction walk with
  | nil => rfl
  | cons e rest ih =>
    rw [currentOf_cons, List.map_cons, List.map_cons, ih]

/-- With duplicate-free walk paths, every walk entry is found in
currentFiles with its own state. -/
theorem snapFind_currentOf {walk : List WalkEntry} {e : WalkEntry}
    (hnd : (walk.map WalkEntry.relPath).Nodup) (he : e ∈ walk) :
    snapFind (currentOf walk) e.relPath = some e.state := by
  induction walk with
  | nil => simp at he
  | cons e2 rest ih =>
    rw [List.map_cons, List.nodup_cons] at hnd
    rcases List.mem_cons.mp he with rfl | hmem
    · rw [currentOf_cons]
      simp [snapFind]
    · have hne : ¬ e2.relPath = e.relPath := by
        intro hh
        exact hnd.1 (hh ▸ List.mem_map_of_mem WalkEntry.relPath hmem)
      rw [currentOf_cons]
      show (if e2.relPath = e.relPath then some e2.state
              else snapFind (currentOf rest) e.relPath) = some e.state
      rw [if_neg hne]
      exact ih hnd.2 hmem

/-- An event emitted for a walk entry carries the relative path of that
entry. -/
theorem relPath_of_mem_entryEvents {known : Snapshot} {b : Bool}
    {e : WalkEntry} {ev : FileChangeEvent} (h : ev ∈ entryEvents known b e) :
    ev.RelPath = e.relPath := by
  unfold entryEvents at h
  split at h
  · split at h
    · simp at h
      subst h
      rfl
    · simp at h
  · split at h
    · simp at h
    · simp at h
      subst h
      rfl

/-- An event emitted for a walk entry is a "modified" or a "created"
event. -/
theorem changeType_of_mem_entryEvents {known : Snapshot} {b : Bool}
    {e : WalkEntry} {ev : FileChangeEvent} (h : ev ∈ entryEvents known b e) :
    ev.ChangeType = "modified" ∨ ev.ChangeType = "created" := by
  unfold entryEvents at h
  split at h
  · split at h
    · simp at h
      subst h
      exact Or.inl rfl
    · simp at h
  · split at h
    · simp at h
    · simp at h
      subst h
      exact Or.inr rfl

/-- An event emitted for a walk entry whose path is already known is a
"modified" event. -/
theorem modified_of_mem_entryEvents {known : Snapshot} {b : Bool}
    {e : WalkEntry} {ev : FileChangeEvent} {old : FileState}
    (hk : snapFind known e.relPath = some old) (h : ev ∈ entryEvents known b e) :
    ev.ChangeType = "modified" := by
  simp only [entryEvents, hk] at h
  split at h
  · simp at h
    subst h
    rfl
  · simp at h

/-- Every walk-phase event comes from some walk entry. -/
theorem exists_entry_of_mem_walkEvents {known : Snapshot}
    {walk : List WalkEntry} {b : Bool} {ev : FileChangeEvent}
    (h : ev ∈ walkEvents known walk b) :
    ∃ e, e ∈ walk ∧ ev ∈ entryEvents known b e := by
  induction walk with
  | nil => simp [walkEvents] at h
  | cons e rest ih =>
    rw [show walkEvents known (e :: rest) b
          = entryEvents known b e ++ walkEvents known rest b from rfl,
        List.mem_append] at h
    rcases h with h | h
    · exact ⟨e, List.mem_cons_self e rest, h⟩
    · obtain ⟨e2, he2, hev⟩ := ih h
      exact ⟨e2, List.mem_cons_of_mem _ he2, hev⟩

/-- Every deleted-phase event is a "deleted" event for a known path that
is absent from the current snapshot. -/
theorem mem_deletedEvents {known current : Snapshot} {ev : FileChangeEvent}
    (h : ev ∈ deletedEvents known current) :
    ev.ChangeType = "deleted" ∧ snapFind current ev.RelPath = none
      ∧ ev.RelPath ∈ known.map Prod.fst := by
  induction known with
  | nil => simp [deletedEvents] at h
  | cons kv rest ih =>
    obtain ⟨k, w⟩ := kv
    rw [show deletedEvents ((k, w) :: rest) current
          = (if snapFind current k = none then [deletedEvent k] else [])
              ++ deletedEvents rest current from rfl,
        List.mem_append] at h
    rcases h with h | h
    · by_cases hck : snapFind current k = none
      · rw [if_pos hck] at h
        simp at h
        subst h
        exact ⟨rfl, hck, by simp [deletedEvent]⟩
      · rw [if_neg hck] at h
        simp at h
    · obtain ⟨h1, h2, h3⟩ := ih h
      exact ⟨h1, h2, by simp [h3]⟩

/-! ## Counting lemmas -/

/-- The walk phase emits no event for a path no walk entry has. -/
theorem countP_walkEvents_not_mem {known : Snapshot} {walk : List WalkEntry}
    {p : String} {b : Bool} (h : ∀ e ∈ walk, e.relPath ≠ p) :
    (walkEvents known walk b).countP (fun ev => ev.RelPath == p) = 0 := by
  rw [List.countP_eq_zero]
  intro ev hev
  obtain ⟨e, he, hme⟩ := exists_entry_of_mem_walkEvents hev
  have hrel := relPath_of_mem_entryEvents hme
  simp only [hrel, beq_iff_eq]
  exact h e he

/-- The walk phase emits exactly one event for a visited known path when
its state changed, none otherwise. -/
theorem countP_entryEvents_known {known : Snapshot} {e : WalkEntry}
    {old : FileState} (hk : snapFind known e.relPath = some old) :
    (entryEvents known false e).countP (fun ev => ev.RelPath == e.relPath)
      = if old.modTime ≠ e.state.modTime ∨ old.size ≠ e.state.size then 1 else 0 := by
  simp only [entryEvents, hk]
  by_cases hch : old.modTime ≠ e.state.modTime ∨ old.size ≠ e.state.size
  · simp [hch, modifiedEvent]
  · simp [hch]

/-- Over a duplicate-free walk containing a known path, the walk phase
emits exactly one event for that path when its state changed, none
otherwise. -/
theorem countP_walkEvents_known {known : Snapshot} {walk : List WalkEntry}
    {e : WalkEntry} {old : FileState}
    (hnd : (walk.map WalkEntry.relPath).Nodup) (he : e ∈ walk)
    (hk : snapFind known e.relPath = some old) :
    (walkEvents known walk false).countP (fun ev => ev.RelPath == e.relPath)
      = if old.modTime ≠ e.state.modTime ∨ old.size ≠ e.state.size then 1 else 0 := by
  induction walk with
  | nil => simp at he
  | cons e2 rest ih =>
    rw [List.map_cons, List.nodup_cons] at hnd
    rw [show walkEvents known (e2 :: rest) false
          = entryEvents known false e2 ++ walkEvents known rest false from rfl,
        List.countP_append]
    rcases List.mem_cons.mp he with rfl | hmem
    · rw [countP_entryEvents_known hk, countP_walkEvents_not_mem ?_, Nat.add_zero]
      intro e3 he3 heq
      exact hnd.1 (heq ▸ List.mem_map_of_mem WalkEntry.relPath he3)
    · have hne : ¬ e2.relPath = e.relPath := by
        intro hh
        exact hnd.1 (hh ▸ List.mem_map_of_mem WalkEntry.relPath hmem)
      have h0 : (entryEvents known false e2).countP
          (fun ev => ev.RelPath == e.relPath) = 0 := by
        rw [List.countP_eq_zero]
        intro ev hev
        have hrel := relPath_of_mem_entryEvents hev
        simp only [hrel, beq_iff_eq]
        exact hne
      rw [h0, ih hnd.2 hmem, Nat.zero_add]

/-- With duplicate-free known keys, the deleted phase emits exactly one
"deleted" event for a known path absent from the current snapshot. -/
theorem countP_deletedEvents_one {known current : Snapshot} {p : String}
    (hnd : (known.map Prod.fst).Nodup) (hmem : p ∈ known.map Prod.fst)
    (hc : snapFind current p = none) :
    (deletedEvents known current).countP
      (fun ev => ev.RelPath == p && ev.ChangeType == "deleted") = 1 := by
  induction known with
  | nil => simp at hmem
  | cons kv rest ih =>
    obtain ⟨k, w⟩ := kv
    rw [List.map_cons, List.nodup_cons] at hnd
    rw [show deletedEvents ((k, w) :: rest) current
          = (if snapFind current k = none then [deletedEvent k] else [])
              ++ deletedEvents rest current from rfl,
        List.countP_append]
    by_cases hk : k = p
    · subst hk
      have hrest : (deletedEvents rest current).countP
          (fun ev => ev.RelPath == k && ev.ChangeType == "deleted") = 0 := by
        rw [List.countP_eq_zero]
        intro ev hev
        obtain ⟨_, _, h3⟩ := mem_deletedEvents hev
        have : ¬ ev.RelPath = k := by
          intro hh
          exact hnd.1 (hh ▸ h3)
        simp [this]
      rw [if_pos hc, hrest]
      simp [deletedEvent]
    · have hmem2 : p ∈ rest.map Prod.fst := by
        rw [List.map_cons, List.mem_cons] at hmem
        exact hmem.resolve_left (fun hh => hk (Eq.symm hh))
      have h0 : (if snapFind current k = none then [deletedEvent k] else []).countP
          (fun ev => ev.RelPath == p && ev.ChangeType == "deleted") = 0 := by
        by_cases hck : snapFind current k = none
        · rw [if_pos hck]
          simp [deletedEvent, hk]
        · rw [if_neg hck]
          rfl
      rw [h0, ih hnd.2 hmem2, Nat.zero_add]

/-! ## Claim theorems -/

/-- Claim C1, counterexample: on a supervisor with a recorded process
handle, when both the SIGTERM delivery and the forced kill fail, Kill
returns with the handle still recorded and the running flag still true, so
the handle is not cleared on every termination path. -/
theorem c1_kill_counterexample :
    (⟨some ⟨some 42⟩, true⟩ : DeployerState).currentCmd ≠ none
    ∧ ¬ ((Kill ⟨some ⟨some 42⟩, true⟩ ⟨false, false, true⟩).1.currentCmd = none
         ∧ (Kill ⟨some ⟨some 42⟩, true⟩ ⟨false, false, true⟩).1.isRunning = false) := by
  decide

/-- Claim C1, amended: for every invocation of Kill on a supervisor with a
recorded process handle, on the graceful-exit path, the forced-termination
path after the grace period, and the signal-delivery-failure path whose
forced kill succeeds, Kill clears the handle, clears the running flag and
returns no error; only when the SIGTERM delivery and the forced kill both
fail does Kill return an error, leaving the handle and the running flag
unchanged. -/
theorem c1_kill_clears_state_amended (s : DeployerState) (env : KillEnv)
    (c : GoCmd) (pid : Nat) (hc : s.currentCmd = some c)
    (hp : c.process = some pid) :
    (env.sigtermOk = true ∨ env.forceKillOk = true →
       (Kill s env).1.currentCmd = none ∧ (Kill s env).1.isRunning = false
         ∧ (Kill s env).2 = none)
    ∧ (env.sigtermOk = false → env.forceKillOk = false →
       (Kill s env).1 = s ∧ (Kill s env).2 = some KillErr.forceKillFailed) := by
  simp only [Kill, hc, hp]
  cases hst : env.sigtermOk <;> cases hfk : env.forceKillOk <;>
    simp [killWaitPhase]

/-- Witness for the amended claim C1 at a concrete state and environment. -/
theorem c1_kill_clears_state_amended_witness :
    (Kill ⟨some ⟨some 7⟩, true⟩ ⟨true, true, true⟩).1.currentCmd = none
    ∧ (Kill ⟨some ⟨some 7⟩, true⟩ ⟨true, true, true⟩).1.isRunning = false
    ∧ (Kill ⟨some ⟨some 7⟩, true⟩ ⟨true, true, true⟩).2 = none :=
  (c1_kill_clears_state_amended ⟨some ⟨some 7⟩, true⟩ ⟨true, true, true⟩
    ⟨some 7⟩ 7 rfl rfl).1 (Or.inl rfl)

/-- Claim C2: for every invocation of Deploy, if the copy step fails or
the child process fails to start, Deploy returns an error and the
supervisor state is unchanged: no process handle is recorded and the
running flag keeps its value, in particular it remains false. -/
theorem c2_deploy_error_state_unchanged (s : DeployerState) (env : DeployEnv)
    (h : env.copyOk = false ∨ env.startOk = false) :
    (Deploy s env).2 ≠ none ∧ (Deploy s env).1 = s := by
  unfold Deploy
  rcases h with h | h
  · simp [h]
  · cases hc : env.copyOk <;> simp [h, hc]

/-- Witness for claim C2 at a concrete state and environment. -/
theorem c2_deploy_error_state_unchanged_witness :
    (Deploy ⟨none, false⟩ ⟨false, true, 7⟩).2 ≠ none
    ∧ (Deploy ⟨none, false⟩ ⟨false, true, 7⟩).1 = ⟨none, false⟩ :=
  c2_deploy_error_state_unchanged ⟨none, false⟩ ⟨false, true, 7⟩ (Or.inl rfl)

/-- Claim C3: for every initial scan, with the empty prior snapshot, of
any directory tree, zero change events are emitted and zero deliveries
reach the subscribers; the scan only establishes the baseline snapshot. -/
theorem c3_initial_scan_no_events (handlerCount : Nat) (walk : List WalkEntry) :
    (scanFiles [] walk true).1 = []
    ∧ notifyAll handlerCount (scanFiles [] walk true).1 = [] := by
  have hw : walkEvents [] walk true = [] := by
    induction walk with
    | nil => rfl
    | cons e rest ih =>
      rw [show walkEvents [] (e :: rest) true
            = entryEvents [] true e ++ walkEvents [] rest true from rfl, ih]
      simp [entryEvents, snapFind]
  have h : (scanFiles [] walk true).1 = [] := by
    show walkEvents [] walk true ++ (if true then [] else _) = []
    rw [hw]
    rfl
  exact ⟨h, by rw [h]; rfl⟩

/-- Claim C4: for consecutive snapshots and a path present in both (a walk
entry whose path is in the stored snapshot), exactly one event is emitted
for that path when its size or modification time differs and none when
both are equal, and every event emitted for that path is a "modified"
event. -/
theorem c4_modified_event_iff_changed (known : Snapshot)
    (walk : List WalkEntry) (e : WalkEntry) (old : FileState)
    (hnd : (walk.map WalkEntry.relPath).Nodup) (he : e ∈ walk)
    (hk : snapFind known e.relPath = some old) :
    ((scanFiles known walk false).1.countP (fun ev => ev.RelPath == e.relPath)
       = if old.modTime ≠ e.state.modTime ∨ old.size ≠ e.state.size then 1 else 0)
    ∧ ∀ ev ∈ (scanFiles known walk false).1, ev.RelPath = e.relPath →
        ev.ChangeType = "modified" := by
  have hcur := snapFind_currentOf hnd he
  constructor
  · rw [scanFiles_fst, List.countP_append, countP_walkEvents_known hnd he hk]
    have h0 : (deletedEvents known (currentOf walk)).countP
        (fun ev => ev.RelPath == e.relPath) = 0 := by
      rw [List.countP_eq_zero]
      intro ev hev
      obtain ⟨_, h2, _⟩ := mem_deletedEvents hev
      simp only [beq_iff_eq]
      intro hh
      rw [hh, hcur] at h2
      exact Option.noConfusion h2
    rw [h0, Nat.add_zero]
  · intro ev hev hrel
    rw [scanFiles_fst, List.mem_append] at hev
    rcases hev with hev | hev
    · obtain ⟨e2, he2, hme⟩ := exists_entry_of_mem_walkEvents hev
      have he2e : e2.relPath = e.relPath :=
        (relPath_of_mem_entryEvents hme).symm.trans hrel
      exact modified_of_mem_entryEvents (by rw [he2e]; exact hk) hme
    · obtain ⟨_, h2, _⟩ := mem_deletedEvents hev
      rw [hrel, hcur] at h2
      exact Option.noConfusion h2

/-- Witness for claim C4: one file whose size and modification time both
changed yields exactly one event for its path. -/
theorem c4_modified_event_iff_changed_witness :
    (scanFiles [("a.txt", ⟨10, 100⟩)] [⟨"a.txt", "/mnt/a.txt", ⟨20, 150⟩⟩]
        false).1.countP (fun ev => ev.RelPath == "a.txt") = 1 := by
  have h := (c4_modified_event_iff_changed [("a.txt", ⟨10, 100⟩)]
      [⟨"a.txt", "/mnt/a.txt", ⟨20, 150⟩⟩] ⟨"a.txt", "/mnt/a.txt", ⟨20, 150⟩⟩
      ⟨10, 100⟩ (by decide) (by decide) rfl).1
  exact h.trans (by decide)

/-- Claim C5: on a non-initial scan, a path present in the previous
snapshot and absent from the current one yields exactly one "deleted"
event, and the event list splits into the walk-phase events (all
"modified" or "created") followed by the deleted-phase events (all
"deleted"), so every deletion is emitted only after the full walk. -/
theorem c5_deleted_exactly_once_after_walk (known : Snapshot)
    (walk : List WalkEntry) (p : String) (v : FileState)
    (hknd : (known.map Prod.fst).Nodup) (hk : snapFind known p = some v)
    (hc : snapFind (currentOf walk) p = none) :
    ((scanFiles known walk false).1.countP
        (fun ev => ev.RelPath == p && ev.ChangeType == "deleted") = 1)
    ∧ ∃ front back, (scanFiles known walk false).1 = front ++ back
        ∧ (∀ ev ∈ front, ev.ChangeType = "modified" ∨ ev.ChangeType = "created")
        ∧ ∀ ev ∈ back, ev.ChangeType = "deleted" := by
  have hpk : p ∈ known.map Prod.fst :=
    List.mem_map_of_mem Prod.fst (mem_of_snapFind_eq_some hk)
  constructor
  · rw [scanFiles_fst, List.countP_append]
    have h0 : (walkEvents known walk false).countP
        (fun ev => ev.RelPath == p && ev.ChangeType == "deleted") = 0 := by
      rw [List.countP_eq_zero]
      intro ev hev
      obtain ⟨e2, _, hme⟩ := exists_entry_of_mem_walkEvents hev
      rcases changeType_of_mem_entryEvents hme with h | h <;> simp [h]
    rw [h0, countP_deletedEvents_one hknd hpk hc, Nat.zero_add]
  · refine ⟨walkEvents known walk false, deletedEvents known (currentOf walk),
      scanFiles_fst known walk, ?_, ?_⟩
    · intro ev hev
      obtain ⟨e2, _, hme⟩ := exists_entry_of_mem_walkEvents hev
      exact changeType_of_mem_entryEvents hme
    · intro ev hev
      exact (mem_deletedEvents hev).1

/-- Witness for claim C5: a stored file absent from an empty walk yields
exactly one "deleted" event. -/
theorem c5_deleted_exactly_once_after_walk_witness :
    (scanFiles [("a.txt", ⟨10, 100⟩)] [] false).1.countP
      (fun ev => ev.RelPath == "a.txt" && ev.ChangeType == "deleted") = 1 :=
  (c5_deleted_exactly_once_after_walk [("a.txt", ⟨10, 100⟩)] [] ("a.txt")
    ⟨10, 100⟩ (by decide) rfl rfl).1

/-- Claim C6: after every scan, the stored snapshot equals the current
snapshot exactly: lookup in the updated stored map agrees with lookup in
currentFiles on every key, so paths absent from the current snapshot are
dropped and no partial merge survives. -/
theorem c6_snapshot_replaced_in_full (known : Snapshot)
    (walk : List WalkEntry) (isInit : Bool) (key : String)
    (hnd : (walk.map WalkEntry.relPath).Nodup) :
    snapFind (scanFiles known walk isInit).2 key
      = snapFind (currentOf walk) key := by
  have hcnd : ((currentOf walk).map Prod.fst).Nodup := by
    rw [currentOf_keys]
    exact hnd
  exact snapFind_updateKnown known (currentOf walk) key hcnd

/-- Witness for claim C6: a stored path absent from the walk is dropped. -/
theorem c6_snapshot_replaced_in_full_witness :
    snapFind (scanFiles [("a.txt", ⟨10, 100⟩), ("b.txt", ⟨1, 2⟩)]
        [⟨"b.txt", "/mnt/b.txt", ⟨3, 4⟩⟩] false).2 ("a.txt")
      = snapFind (currentOf [⟨"b.txt", "/mnt/b.txt", ⟨3, 4⟩⟩]) ("a.txt") :=
  c6_snapshot_replaced_in_full [("a.txt", ⟨10, 100⟩), ("b.txt", ⟨1, 2⟩)]
    [⟨"b.txt", "/mnt/b.txt", ⟨3, 4⟩⟩] false ("a.txt") (by decide)

/-- Claim C7: Handle reloads the configuration and triggers Redeploy on an
event for the config filename, keeping the previous configuration when the
reload fails; it triggers Redeploy without touching the configuration on a
source-file event; and it does nothing on any other event. -/
theorem c7_handle_dispatch (cfg : DeployConfig) (ev : FileChangeEvent)
    (loaded : Option DeployConfig) :
    (ev.RelPath = CONFIG_ID →
       Handle cfg ev loaded = (reloadConfig cfg loaded, true)
       ∧ (loaded = none → (Handle cfg ev loaded).1 = cfg)
       ∧ ∀ newCfg, loaded = some newCfg → (Handle cfg ev loaded).1 = newCfg)
    ∧ (ev.RelPath ≠ CONFIG_ID → isSourceFile cfg ev.RelPath = true →
       Handle cfg ev loaded = (cfg, true))
    ∧ (ev.RelPath ≠ CONFIG_ID → isSourceFile cfg ev.RelPath = false →
       Handle cfg ev loaded = (cfg, false)) := by
  refine ⟨fun h => ⟨by simp [Handle, h], fun hl => ?_, fun newCfg hl => ?_⟩,
    fun h hs => ?_, fun h hs => ?_⟩
  · simp [Handle, h, reloadConfig, hl]
  · simp [Handle, h, reloadConfig, hl]
  · simp [Handle, h, hs]
  · simp [Handle, h, hs]

/-- Witness for claim C7: a config-file event with a failed reload keeps
the previous configuration and triggers Redeploy. -/
theorem c7_handle_dispatch_witness :
    Handle ⟨"/deploy", "/usr/bin/app", [], "src", []⟩
        ⟨"deploy.json", "/mnt/agent/deploy.json", "modified", 1, 1⟩ none
      = (reloadConfig ⟨"/deploy", "/usr/bin/app", [], "src", []⟩ none, true) :=
  ((c7_handle_dispatch ⟨"/deploy", "/usr/bin/app", [], "src", []⟩
    ⟨"deploy.json", "/mnt/agent/deploy.json", "modified", 1, 1⟩ none).1 rfl).1

/-- Claim C8: Kill on a supervisor with no recorded process handle is a
no-op: it returns the state unchanged and no error. -/
theorem c8_kill_noop_when_idle (s : DeployerState) (env : KillEnv)
    (h : s.currentCmd = none) : Kill s env = (s, none) := by
  simp [Kill, h]

/-- Witness for claim C8 at a concrete idle state. -/
theorem c8_kill_noop_when_idle_witness :
    Kill ⟨none, true⟩ ⟨true, true, true⟩ = (⟨none, true⟩, none) :=
  c8_kill_noop_when_idle ⟨none, true⟩ ⟨true, true, true⟩ rfl

/-- Claim C9: the source-file classification is a plain string-prefix test
on cleaned paths, not a path-component test: the relative path srcfoo/x is
not inside the source directory src, yet isSourceFile classifies it as a
source file and Handle triggers Redeploy for it. -/
theorem c9_source_classification_plain_string_test :
    isSourceFile ⟨"/deploy", "/usr/bin/app", [], "src", []⟩ ("srcfoo/x") = true
    ∧ isInsideDir ("src") ("srcfoo/x") = false
    ∧ (Handle ⟨"/deploy", "/usr/bin/app", [], "src", []⟩
        ⟨"srcfoo/x", "/mnt/agent/srcfoo/x", "modified", 1, 1⟩ none).2 = true := by
  refine ⟨?_, ?_, ?_⟩ <;> decide

/-- Claim C10: every file copied by copyDir is written with the fixed
permission mode 0644 regardless of the source file mode, while every
copied directory keeps the source directory mode. -/
theorem c10_copy_modes (dst : String) (walk : List CopyEntry) :
    (∀ p d m, FsAction.writeFile p d m ∈ copyDir dst walk → m = 0o644)
    ∧ (∀ e ∈ walk, e.isDir = true →
        FsAction.mkdirAll (goJoin dst e.relPath) e.mode ∈ copyDir dst walk)
    ∧ (∀ e ∈ walk, e.isDir = false →
        FsAction.writeFile (goJoin dst e.relPath) e.data 0o644 ∈ copyDir dst walk) := by
  refine ⟨?_, ?_, ?_⟩
  · intro p d m hmem
    rcases List.mem_cons.mp hmem with h | h
    · exact absurd h (by simp)
    · obtain ⟨e, he, heq⟩ := List.mem_map.mp h
      by_cases hd : e.isDir
      · rw [if_pos hd] at heq
        exact absurd heq (by simp)
      · rw [if_neg hd] at heq
        simp only [copyFile] at heq
        injection heq with h1 h2 h3
        exact h3.symm
  · intro e he hd
    refine List.mem_cons_of_mem _ (List.mem_map.mpr ⟨e, he, ?_⟩)
    rw [if_pos hd]
  · intro e he hd
    refine List.mem_cons_of_mem _ (List.mem_map.mpr ⟨e, he, ?_⟩)
    rw [if_neg (by simp [hd])]
    rfl

/-- Witness for claim C10 at a concrete walk: an executable source file is
written with mode 0644 and a directory keeps its mode 0700. -/
theorem c10_copy_modes_witness :
    FsAction.writeFile (goJoin ("/deploy") ("bin/tool")) [7, 7] 0o644 ∈
      copyDir ("/deploy") [⟨"bin/tool", false, 0o755, [7, 7]⟩, ⟨"lib", true, 0o700, []⟩]
    ∧ FsAction.mkdirAll (goJoin ("/deploy") ("lib")) 0o700 ∈
      copyDir ("/deploy") [⟨"bin/tool", false, 0o755, [7, 7]⟩, ⟨"lib", true, 0o700, []⟩] := by
  refine ⟨(c10_copy_modes ("/deploy") _).2.2 ⟨"bin/tool", false, 0o755, [7, 7]⟩ ?_ rfl,
    (c10_copy_modes ("/deploy") _).2.1 ⟨"lib", true, 0o700, []⟩ ?_ rfl⟩ <;> decide

end GoDeployer
